import Mathlib

/-!
Verification of the authentication-bootstrap and realtime-synchronization
core of the single-room chat client (`src/src/App.jsx`).

The embedding is shallow: the snapshot ordering comparator, the `handleSend`
composer action, the auth/subscription `useEffect` logic and the React state
of the single `ChatApp` component are translated into pure Lean functions and
an explicit event-step function over a record of the component's state.
-/

namespace Chat

/-- A message document as built by the `onSnapshot` callback
(`docs.push({ id: d.id, ...data })`, App.jsx lines 121-125).
`timestamp` is the server-assigned time in milliseconds; it is `none` while
the backend has not stamped the document yet (`serverTimestamp` pending). -/
structure Msg where
  id : String
  userId : String
  text : String
  timestamp : Option Int
deriving DecidableEq, Repr

/-- Sort key of the comparator at App.jsx lines 127-131:
`a.timestamp?.toMillis ? a.timestamp.toMillis() : 0`. -/
def msgKey (m : Msg) : Int :=
  m.timestamp.getD 0

/-- Stable insertion of a message into a key-sorted list: the inserted
element goes before the first element whose key is ≥ its own never after an
equal key, which is exactly the placement a stable ascending sort by
`msgKey` gives to an element that preceded the rest in the input. -/
def insertSorted (m : Msg) : List Msg → List Msg
  | [] => [m]
  | b :: l => if msgKey m ≤ msgKey b then m :: b :: l else b :: insertSorted m l

/-- The Message Ordering Policy: `docs.sort((a, b) => ta - tb)` at
App.jsx lines 127-131. ECMAScript `Array.prototype.sort` is a stable sort
consistent with the comparator, so the result is the stable ascending sort
of the snapshot array by `msgKey`, here realised as insertion sort. -/
def orderPolicy : List Msg → List Msg
  | [] => []
  | a :: l => insertSorted a (orderPolicy l)

/-- Tag each list element with its index, starting at `n`. -/
def tagFrom (n : Nat) : List Msg → List (Nat × Msg)
  | [] => []
  | m :: l => (n, m) :: tagFrom (n + 1) l

/-- Strict-then-index comparison of index-tagged messages: ascending by
`(key, insertion index)` lexicographically, the total order the spec's
§4.3 names. -/
def lexLe (p q : Nat × Msg) : Prop :=
  msgKey p.2 < msgKey q.2 ∨ (msgKey p.2 = msgKey q.2 ∧ p.1 ≤ q.1)

instance (p q : Nat × Msg) : Decidable (lexLe p q) := by
  unfold lexLe; infer_instance

/-- Insertion into a `lexLe`-sorted tagged list. -/
def lexInsert (p : Nat × Msg) : List (Nat × Msg) → List (Nat × Msg)
  | [] => [p]
  | q :: l => if lexLe p q then p :: q :: l else q :: lexInsert p l

/-- Insertion sort of tagged messages by `lexLe`. -/
def lexSort : List (Nat × Msg) → List (Nat × Msg)
  | [] => []
  | p :: l => lexInsert p (lexSort l)

/-- Modelled from the spec's words (§4.3): order the snapshot ascending by
the total order key `(serverTimestamp_ms if present else 0, insertion index
as tiebreak)`. Stated independently of `orderPolicy` so the two can be
compared. -/
def specOrder (l : List Msg) : List Msg :=
  (lexSort (tagFrom 0 l)).map Prod.snd

theorem mem_lexInsert {p q : Nat × Msg} {l : List (Nat × Msg)}
    (h : q ∈ lexInsert p l) : q = p ∨ q ∈ l := by
  induction l with
  | nil => simpa [lexInsert] using h
  | cons r l ih =>
    by_cases hc : lexLe p r
    · simp [lexInsert, hc] at h
      rcases h with h | h | h
      · exact Or.inl h
      · exact Or.inr (by simp [h])
      · exact Or.inr (by simp [h])
    · simp [lexInsert, hc] at h
      rcases h with h | h
      · exact Or.inr (by simp [h])
      · rcases ih h with h | h
        · exact Or.inl h
        · exact Or.inr (by simp [h])

theorem mem_lexSort {q : Nat × Msg} {l : List (Nat × Msg)}
    (h : q ∈ lexSort l) : q ∈ l := by
  induction l with
  | nil => simp [lexSort] at h
  | cons p l ih =>
    rcases mem_lexInsert h with h | h
    · simp [h]
    · exact List.mem_cons_of_mem _ (ih h)

theorem mem_tagFrom {n : Nat} {l : List Msg} {q : Nat × Msg}
    (h : q ∈ tagFrom n l) : n ≤ q.1 := by
  induction l generalizing n with
  | nil => simp [tagFrom] at h
  | cons m l ih =>
    simp [tagFrom] at h
    rcases h with h | h
    · simp [h]
    · exact Nat.le_of_succ_le (ih h)

theorem lexInsert_map_snd {n : Nat} {m : Msg} {l : List (Nat × Msg)}
    (hgt : ∀ q ∈ l, n < q.1) :
    (lexInsert (n, m) l).map Prod.snd = insertSorted m (l.map Prod.snd) := by
  induction l with
  | nil => simp [lexInsert, insertSorted]
  | cons q l ih =>
    have hq : n < q.1 := hgt q (by simp)
    have hiff : lexLe (n, m) q ↔ msgKey m ≤ msgKey q.2 := by
      unfold lexLe
      constructor
      · rintro (h | ⟨h, _⟩)
        · exact le_of_lt h
        · exact le_of_eq h
      · intro h
        rcases lt_or_eq_of_le h with h | h
        · exact Or.inl h
        · exact Or.inr ⟨h, Nat.le_of_lt hq⟩
    by_cases hc : msgKey m ≤ msgKey q.2
    · simp [lexInsert, hiff.mpr hc, insertSorted, hc]
    · have : ¬ lexLe (n, m) q := fun h => hc (hiff.mp h)
      simp [lexInsert, this, insertSorted, hc]
      exact ih (fun r hr => hgt r (by simp [hr]))

theorem lexSort_tagFrom_map_snd (l : List Msg) (n : Nat) :
    (lexSort (tagFrom n l)).map Prod.snd = orderPolicy l := by
  induction l generalizing n with
  | nil => simp [tagFrom, lexSort, orderPolicy]
  | cons m l ih =>
    have hgt : ∀ q ∈ lexSort (tagFrom (n + 1) l), n < q.1 := by
      intro q hq
      exact Nat.lt_of_succ_le (mem_tagFrom (mem_lexSort hq))
    calc (lexSort (tagFrom n (m :: l))).map Prod.snd
        = (lexInsert (n, m) (lexSort (tagFrom (n + 1) l))).map Prod.snd := by
          simp [tagFrom, lexSort]
      _ = insertSorted m ((lexSort (tagFrom (n + 1) l)).map Prod.snd) :=
          lexInsert_map_snd hgt
      _ = insertSorted m (orderPolicy l) := by rw [ih]
      _ = orderPolicy (m :: l) := rfl

/-- JavaScript whitespace recognised by `String.prototype.trim` (the ASCII
part; the snapshot drafts in scope are ASCII). -/
def isJsSpace (c : Char) : Bool :=
  c == ' ' || c == '\t' || c == '\n' || c == '\r' || c == '\x0b' || c == '\x0c'

/-- `newMessage.trim()`: strip whitespace from both ends (App.jsx line 156). -/
def jsTrim (s : String) : String :=
  ⟨((s.data.dropWhile isJsSpace).reverse.dropWhile isJsSpace).reverse⟩

/-- Session phase as exposed through the `status` state string:
`Connecting...`, `Auth required`, `Online`, `Init error`. -/
inductive Status where
  | connecting
  | authRequired
  | online
  | initError
deriving DecidableEq, Repr

/-- The payload handed to `addDoc` (App.jsx lines 159-163): `text`, `userId`
and the `serverTimestamp()` sentinel. `serverTs = true` records that a
server-assigned timestamp was requested and no client-chosen value sent. -/
structure MsgWrite where
  text : String
  userId : String
  serverTs : Bool
deriving DecidableEq, Repr

/-- The React state of the `ChatApp` component together with the refs that
govern the feed subscription. `sub` is `unsubRef.current` (the id of the
subscription the stored unsubscribe handle targets), `live` the set of
subscriptions currently open at the backend, `db` whether `dbRef.current`
has been assigned, `nextSubId` a fresh-name supply. -/
structure AppState where
  userId : Option String
  isAuthReady : Bool
  messages : List Msg
  newMessage : String
  status : Status
  db : Bool
  sub : Option Nat
  live : List Nat
  nextSubId : Nat
deriving DecidableEq, Repr

/-- The component's state at mount: `useState(null)`, `useState(false)`,
`useState([])`, `useState('')`, `useState('Connecting...')`, null refs. -/
def initState : AppState :=
  { userId := none, isAuthReady := false, messages := [], newMessage := "",
    status := Status.connecting, db := false, sub := none, live := [],
    nextSubId := 0 }

/-- Externally visible effects of one event: opening a feed subscription
(recording the identity and phase at that instant), releasing one, and a
backend write. -/
inductive Action where
  | openSub (uid : Option String) (st : Status)
  | closeSub
  | write (w : MsgWrite)
deriving DecidableEq, Repr

/-- `handleSend` (App.jsx lines 154-168): guard on `dbRef.current` and
`userId`, trim the draft, guard on emptiness, then `addDoc` with the payload;
on success clear the draft, on failure only log. `writeOk` is the outcome of
the awaited `addDoc`; the second component is the write issued, if any. -/
def handleSend (s : AppState) (writeOk : Bool) : AppState × Option MsgWrite :=
  match s.userId with
  | none => (s, none)
  | some u =>
    if s.db = false then (s, none)
    else
      let text := jsTrim s.newMessage
      if text = "" then (s, none)
      else if writeOk then
        ({ s with newMessage := "" }, some ⟨text, u, true⟩)
      else (s, some ⟨text, u, true⟩)

/-- Cleanup of the previous run of the subscription effect
(App.jsx lines 142-144): `unsubRef.current && unsubRef.current()` releases
the subscription the handle targets; the handle itself is not nulled. -/
def effectCleanup (s : AppState) : AppState × List Action :=
  match s.sub with
  | some i => ({ s with live := s.live.erase i }, [Action.closeSub])
  | none => (s, [])

/-- Body of the subscription effect (App.jsx lines 110-141): return unless
`isAuthReady && userId`; assign `dbRef.current`; call the stored unsubscribe
once more (releasing an already-released subscription is a no-op, so no
action is recorded); open the new `onSnapshot` subscription and store its
unsubscribe handle. -/
def effectBody (s : AppState) : AppState × List Action :=
  if s.isAuthReady = false ∨ s.userId = none then (s, [])
  else
    let s2 :=
      match s.sub with
      | some i => { s with live := s.live.erase i }
      | none => s
    ({ s2 with
        db := true,
        sub := some s2.nextSubId,
        live := s2.live ++ [s2.nextSubId],
        nextSubId := s2.nextSubId + 1 },
      [Action.openSub s.userId s.status])

/-- A full re-run of the subscription effect after its dependencies changed:
React runs the previous run's cleanup, then the body. -/
def runEffect (s : AppState) : AppState × List Action :=
  let c := effectCleanup s
  let b := effectBody c.1
  (b.1, c.2 ++ b.2)

/-- External events driving the component: an auth-state notification
(App.jsx lines 87-96), a snapshot or snapshot error on the live subscription
(lines 120-137), an edit of the draft input (line 222), a press of send with
the write's outcome (lines 154-168), and a failure of provider
initialization (lines 104-107). -/
inductive Event where
  | auth (user : Option String)
  | snap (docs : List Msg)
  | snapErr
  | draft (t : String)
  | send (writeOk : Bool)
  | initFail
deriving DecidableEq, Repr

/-- One event step. The `onAuthStateChanged` callback with a user sets
`userId`, `isAuthReady` and `status` to Online; the subscription effect then
re-runs exactly when its dependencies `[isAuthReady, userId]` changed (the
collection path is constant). With a null user it only sets
`status = 'Auth required'` and re-attempts sign-in — it clears neither
`userId` nor `isAuthReady`, so the effect does not re-run. A snapshot
rebuilds `messages` from the full snapshot through the Ordering Policy; a
snapshot error is only logged. -/
def step (s : AppState) (e : Event) : AppState × List Action :=
  match e with
  | Event.auth (some u) =>
    let s' := { s with userId := some u, isAuthReady := true,
                       status := Status.online }
    if s.userId = some u ∧ s.isAuthReady = true then (s', [])
    else runEffect s'
  | Event.auth none => ({ s with status := Status.authRequired }, [])
  | Event.snap docs =>
    if s.live = [] then (s, [])
    else ({ s with messages := orderPolicy docs }, [])
  | Event.snapErr => (s, [])
  | Event.draft t => ({ s with newMessage := t }, [])
  | Event.send ok =>
    let r := handleSend s ok
    (r.1, match r.2 with | some w => [Action.write w] | none => [])
  | Event.initFail => ({ s with status := Status.initError }, [])

/-- State reached from `s` after a sequence of events. -/
def runS (s : AppState) : List Event → AppState
  | [] => s
  | e :: evs => runS (step s e).1 evs

/-- The configured auth method as a value: which sign-in call `doAuth`
makes (App.jsx lines 75-85). -/
inductive AuthMethod where
  | customToken (t : String)
  | anonymous
deriving DecidableEq, Repr

/-- `getInitialAuthToken` (App.jsx lines 29-35): read the optional global
`window.__initial_auth_token || null`; a missing global or a falsy (empty)
string yields null. -/
def getInitialAuthToken (w : Option String) : Option String :=
  match w with
  | some t => if t = "" then none else some t
  | none => none

/-- The branch inside `doAuth` (App.jsx lines 77-81): `signInWithCustomToken`
when a token is present, else `signInAnonymously`. -/
def doAuthMethod : Option String → AuthMethod
  | some t => AuthMethod.customToken t
  | none => AuthMethod.anonymous

/-- Sign-in method chosen at process start for a given state of the
out-of-band global. -/
def authMethodAtStart (w : Option String) : AuthMethod :=
  doAuthMethod (getInitialAuthToken w)

theorem mem_insertSorted {x m : Msg} {l : List Msg}
    (h : x ∈ insertSorted m l) : x = m ∨ x ∈ l := by
  induction l with
  | nil => simpa [insertSorted] using h
  | cons b l ih =>
    by_cases hc : msgKey m ≤ msgKey b
    · simp [insertSorted, hc] at h
      rcases h with h | h | h
      · exact Or.inl h
      · exact Or.inr (by simp [h])
      · exact Or.inr (by simp [h])
    · simp [insertSorted, hc] at h
      rcases h with h | h
      · exact Or.inr (by simp [h])
      · rcases ih h with h | h
        · exact Or.inl h
        · exact Or.inr (by simp [h])

theorem pairwise_insertSorted {m : Msg} {l : List Msg}
    (h : l.Pairwise (fun a b => msgKey a ≤ msgKey b)) :
    (insertSorted m l).Pairwise (fun a b => msgKey a ≤ msgKey b) := by
  induction l with
  | nil => simp [insertSorted]
  | cons b l ih =>
    rcases List.pairwise_cons.mp h with ⟨hb, hl⟩
    by_cases hc : msgKey m ≤ msgKey b
    · rw [insertSorted, if_pos hc]
      refine List.pairwise_cons.mpr ⟨?_, h⟩
      intro x hx
      rcases List.mem_cons.mp hx with rfl | hx
      · exact hc
      · exact le_trans hc (hb x hx)
    · rw [insertSorted, if_neg hc]
      refine List.pairwise_cons.mpr ⟨?_, ih hl⟩
      intro x hx
      rcases mem_insertSorted hx with rfl | hx
      · exact le_of_lt (lt_of_not_le hc)
      · exact hb x hx

theorem pairwise_orderPolicy (l : List Msg) :
    (orderPolicy l).Pairwise (fun a b => msgKey a ≤ msgKey b) := by
  induction l with
  | nil => simp [orderPolicy]
  | cons m l ih => exact pairwise_insertSorted ih

theorem orderPolicy_of_pairwise {l : List Msg}
    (h : l.Pairwise (fun a b => msgKey a ≤ msgKey b)) : orderPolicy l = l := by
  induction l with
  | nil => rfl
  | cons m l ih =>
    rcases List.pairwise_cons.mp h with ⟨hm, hl⟩
    rw [orderPolicy, ih hl]
    cases l with
    | nil => rfl
    | cons b l2 =>
      have hb : msgKey m ≤ msgKey b := hm b (by simp)
      rw [insertSorted, if_pos hb]

theorem effectCleanup_fields (s : AppState) :
    (effectCleanup s).1.userId = s.userId ∧ (effectCleanup s).1.status = s.status ∧
    (effectCleanup s).1.isAuthReady = s.isAuthReady ∧
    (effectCleanup s).1.sub = s.sub := by
  cases h : s.sub <;> simp [effectCleanup, h]

theorem handleSend_fields (s : AppState) (ok : Bool) :
    (handleSend s ok).1.userId = s.userId ∧ (handleSend s ok).1.status = s.status ∧
    (handleSend s ok).1.live = s.live ∧ (handleSend s ok).1.sub = s.sub := by
  unfold handleSend
  cases hu : s.userId
  · simp [hu]
  · simp only [hu]
    split_ifs <;> simp [hu]

/-- The subscription-effect re-run with a ready identity: the actions are a
release of the previously stored subscription, if any, followed by one open
recording the identity and phase at that instant. -/
theorem runEffect_actions (s : AppState)
    (hr : s.isAuthReady = true) (hu : s.userId ≠ none) :
    (runEffect s).2 = (if s.sub.isSome then [Action.closeSub] else []) ++
      [Action.openSub s.userId s.status] := by
  have hg : ¬((effectCleanup s).1.isAuthReady = false ∨
      (effectCleanup s).1.userId = none) := by
    rcases effectCleanup_fields s with ⟨h1, _, h3, _⟩
    rw [h1, h3, hr]
    simp [hu]
  cases h : s.sub with
  | none =>
    simp [runEffect, effectCleanup, h, effectBody, hr, hu]
  | some i =>
    rcases effectCleanup_fields s with ⟨h1, h2, _, _⟩
    simp only [runEffect, effectBody, if_neg hg]
    simp [effectCleanup, h, h1, h2]

/-- Identity, phase and readiness are never touched by the subscription
effect. -/
theorem runEffect_fields (s : AppState) :
    (runEffect s).1.userId = s.userId ∧ (runEffect s).1.status = s.status ∧
    (runEffect s).1.isAuthReady = s.isAuthReady := by
  rcases effectCleanup_fields s with ⟨h1, h2, h3, _⟩
  by_cases hg : (effectCleanup s).1.isAuthReady = false ∨
      (effectCleanup s).1.userId = none
  · simp only [runEffect, effectBody, if_pos hg]
    exact ⟨h1, h2, h3⟩
  · simp only [runEffect, effectBody, if_neg hg]
    cases h : (effectCleanup s).1.sub <;> simp [h, h1, h2, h3]

/-- Agreement between the stored unsubscribe handle and the set of
subscriptions open at the backend: the handle targets the one live
subscription, or there is none. -/
def SubInv (s : AppState) : Prop :=
  s.live = s.sub.toList

theorem runEffect_subInv (s : AppState) (hr : s.isAuthReady = true)
    (hu : s.userId ≠ none) (hs : SubInv s) : SubInv (runEffect s).1 := by
  have hg : ¬((effectCleanup s).1.isAuthReady = false ∨
      (effectCleanup s).1.userId = none) := by
    rcases effectCleanup_fields s with ⟨h1, _, h3, _⟩
    rw [h1, h3, hr]
    simp [hu]
  cases h : s.sub with
  | none =>
    have hl : s.live = [] := by simpa [SubInv, h] using hs
    simp [runEffect, effectCleanup, h, effectBody, hr, hu, SubInv, hl]
  | some i =>
    have hl : s.live = [i] := by simpa [SubInv, h] using hs
    simp only [runEffect, effectBody, if_neg hg]
    simp [effectCleanup, h, hl, SubInv]

theorem step_subInv {s : AppState} (e : Event) (h : SubInv s) :
    SubInv (step s e).1 := by
  cases e with
  | auth user =>
    cases user with
    | some u =>
      by_cases hd : s.userId = some u ∧ s.isAuthReady = true
      · simpa [step, hd, SubInv] using h
      · simp only [step, if_neg hd]
        exact runEffect_subInv _ rfl (by simp) (by simpa [SubInv] using h)
    | none => simpa [step, SubInv] using h
  | snap docs =>
    by_cases hl : s.live = [] <;> simpa [step, hl, SubInv] using h
  | snapErr => simpa [step, SubInv] using h
  | draft t => simpa [step, SubInv] using h
  | send ok =>
    rcases handleSend_fields s ok with ⟨_, _, h3, h4⟩
    simp only [step, SubInv]
    rw [h3, h4]
    exact h
  | initFail => simpa [step, SubInv] using h

theorem runS_subInv (evs : List Event) (s : AppState) (h : SubInv s) :
    SubInv (runS s evs) := by
  induction evs generalizing s with
  | nil => exact h
  | cons e evs ih => exact ih _ (step_subInv e h)

/-- The exposed-state invariant `phase = Online → identity ≠ null`. -/
def OnlineInv (s : AppState) : Prop :=
  s.status = Status.online → s.userId ≠ none

theorem step_onlineInv {s : AppState} (e : Event) (h : OnlineInv s) :
    OnlineInv (step s e).1 := by
  unfold OnlineInv at h ⊢
  cases e with
  | auth user =>
    cases user with
    | some u =>
      by_cases hd : s.userId = some u ∧ s.isAuthReady = true
      · simp [step, hd]
      · rcases runEffect_fields
          { s with userId := some u, isAuthReady := true, status := Status.online }
          with ⟨h1, _, _⟩
        simp only [step, if_neg hd]
        intro _
        rw [h1]
        simp
    | none => simp [step]
  | snap docs =>
    by_cases hl : s.live = [] <;> simp [step, hl] <;> exact h
  | snapErr => simpa [step] using h
  | draft t => simpa [step] using h
  | send ok =>
    rcases handleSend_fields s ok with ⟨h1, h2, _, _⟩
    simp only [step]
    rw [h1, h2]
    exact h
  | initFail => simp [step]

theorem runS_onlineInv (evs : List Event) (s : AppState) (h : OnlineInv s) :
    OnlineInv (runS s evs) := by
  induction evs generalizing s with
  | nil => exact h
  | cons e evs ih => exact ih _ (step_onlineInv e h)

/-- Complete case analysis of how a feed subscription can come to be
opened: only an auth notification with a non-null user whose value changed
the effect dependencies, and then the recorded identity is that user and
the recorded phase is Online, preceded by a release exactly when an
unsubscribe handle was stored. -/
theorem openSub_mem_step {s : AppState} {e : Event} {u : Option String}
    {st : Status} (h : Action.openSub u st ∈ (step s e).2) :
    ∃ v, e = Event.auth (some v) ∧ u = some v ∧ st = Status.online ∧
      (step s e).2 = (if s.sub.isSome then [Action.closeSub] else []) ++
        [Action.openSub (some v) Status.online] := by
  cases e with
  | auth user =>
    cases user with
    | some v =>
      by_cases hd : s.userId = some v ∧ s.isAuthReady = true
      · simp [step, hd] at h
      · have hact : (step s (Event.auth (some v))).2 =
            (if s.sub.isSome then [Action.closeSub] else []) ++
            [Action.openSub (some v) Status.online] := by
          have hr := runEffect_actions
            { s with userId := some v, isAuthReady := true,
                     status := Status.online } rfl (by simp)
          simpa [step, hd] using hr
        rw [hact] at h
        by_cases hs : s.sub.isSome
        · rw [if_pos hs] at h
          simp at h
          exact ⟨v, rfl, h.1, h.2, hact⟩
        · rw [if_neg hs] at h
          simp at h
          exact ⟨v, rfl, h.1, h.2, hact⟩
    | none => simp [step] at h
  | snap docs => by_cases hl : s.live = [] <;> simp [step, hl] at h
  | snapErr => simp [step] at h
  | draft t => simp [step] at h
  | send ok =>
    simp only [step] at h
    cases hw : (handleSend s ok).2 <;> simp [hw] at h
  | initFail => simp [step] at h

/-- C1: the Ordering Policy orders every snapshot ascending by the key
`(serverTimestamp_ms if present else 0)` with the message's position in the
incoming snapshot array as tiebreak — i.e. it equals the lexicographic
`(key, index)` sort stated by the spec — and on the snapshot holding
timestamps 2000 then 1000 in that array order it places the 1000 message
first. -/
theorem ordering_policy_total_order :
    (∀ l, orderPolicy l = specOrder l) ∧
    (∀ l, (orderPolicy l).Pairwise (fun a b => msgKey a ≤ msgKey b)) ∧
    orderPolicy [⟨"m1", "a", "x", some 2000⟩, ⟨"m2", "b", "y", some 1000⟩]
      = [⟨"m2", "b", "y", some 1000⟩, ⟨"m1", "a", "x", some 2000⟩] :=
  ⟨fun l => (lexSort_tagFrom_map_snd l 0).symm, pairwise_orderPolicy, by decide⟩

/-- C2: the Ordering Policy is a pure function of the snapshot and applying
it once or repeatedly yields the same sequence: re-sorting its own output
(with the new insertion indices as tiebreak) changes nothing. -/
theorem ordering_policy_idempotent :
    ∀ l, orderPolicy (orderPolicy l) = orderPolicy l :=
  fun l => orderPolicy_of_pairwise (pairwise_orderPolicy l)

/-- C3 counterexample: after signing in, drafting `hi` and then losing the
identity at the provider (phase returns to AuthRequired while `userId` and
`dbRef` keep their old values), a submit is not a no-op: the phase is not
Online, yet a write is issued and the draft is mutated. -/
theorem submit_phase_guard_counterexample :
    (runS initState
        [Event.auth (some "u"), Event.draft "hi", Event.auth none]).status
      ≠ Status.online ∧
    (handleSend (runS initState
        [Event.auth (some "u"), Event.draft "hi", Event.auth none]) true).2
      ≠ none ∧
    (handleSend (runS initState
        [Event.auth (some "u"), Event.draft "hi", Event.auth none]) true).1.newMessage
      ≠ (runS initState
        [Event.auth (some "u"), Event.draft "hi", Event.auth none]).newMessage := by
  decide

/-- C3 amended: a submit is a no-op — no write issued, draft untouched, no
error — whenever the document-store handle is uninitialized, or the
identity is null, or the draft trims to empty. (The phase itself is not
consulted: with identity and store handle retained from an earlier Online
period, a submit proceeds even while the phase is AuthRequired.) -/
theorem submit_guard_amended :
    ∀ s ok, s.db = false ∨ s.userId = none ∨ jsTrim s.newMessage = "" →
    handleSend s ok = (s, none) := by
  intro s ok h
  unfold handleSend
  cases hu : s.userId with
  | none => rfl
  | some u =>
    rcases h with h | h | h
    · simp [h]
    · rw [hu] at h
      exact absurd h (by simp)
    · by_cases hdb : s.db = false
      · simp [hdb]
      · simp [hdb, h]

theorem submit_guard_amended_witness :
    (initState.db = false ∨ initState.userId = none ∨
      jsTrim initState.newMessage = "") ∧
    handleSend initState true = (initState, none) :=
  ⟨Or.inl rfl, submit_guard_amended initState true (Or.inl rfl)⟩

/-- C4: when the submit preconditions hold (store handle set, identity
present, trimmed draft non-empty), a write is issued; a successful write
clears the draft to the empty string, a failed write leaves the state — in
particular the draft — exactly as it was, with no further write (the
failure is only logged). -/
theorem submit_outcome_draft :
    ∀ s u, s.db = true → s.userId = some u → jsTrim s.newMessage ≠ "" →
    handleSend s true
      = ({ s with newMessage := "" }, some ⟨jsTrim s.newMessage, u, true⟩) ∧
    handleSend s false = (s, some ⟨jsTrim s.newMessage, u, true⟩) := by
  intro s u hdb hu ht
  unfold handleSend
  simp [hu, hdb, ht]

/-- A concrete ready-to-send state: store handle set, identity `u1`, draft
with surrounding spaces. -/
def readyDraftState : AppState :=
  { initState with db := true, userId := some "u1", newMessage := " hello " }

theorem submit_outcome_draft_witness :
    readyDraftState.db = true ∧
    jsTrim " hello " ≠ "" ∧
    handleSend readyDraftState true
      = ({ readyDraftState with newMessage := "" },
          some ⟨jsTrim " hello ", "u1", true⟩) ∧
    handleSend readyDraftState false
      = (readyDraftState, some ⟨jsTrim " hello ", "u1", true⟩) := by
  have h := submit_outcome_draft readyDraftState "u1" rfl rfl (by decide)
  exact ⟨rfl, by decide, h.1, h.2⟩

/-- C5: every write issued by a submit carries `userId` equal to the current
identity, `text` equal to the trimmed draft, and the server-timestamp
sentinel (no client-chosen timestamp value). -/
theorem submit_write_payload :
    ∀ s ok p w, handleSend s ok = (p, some w) →
    s.userId = some w.userId ∧ w.text = jsTrim s.newMessage ∧
    w.serverTs = true := by
  intro s ok p w h
  unfold handleSend at h
  cases hu : s.userId with
  | none =>
    rw [hu] at h
    simp at h
  | some u =>
    rw [hu] at h
    by_cases hdb : s.db = false
    · simp [hdb] at h
    · by_cases ht : jsTrim s.newMessage = ""
      · simp [hdb, ht] at h
      · cases ok with
        | true =>
          simp [hdb, ht] at h
          rcases h with ⟨_, hw⟩
          rw [← hw]
          simp
        | false =>
          simp [hdb, ht] at h
          rcases h with ⟨_, hw⟩
          rw [← hw]
          simp

/-- A concrete ready-to-send state for identity `u2` with draft ` yo `. -/
def readyDraftState2 : AppState :=
  { initState with db := true, userId := some "u2", newMessage := " yo " }

theorem submit_write_payload_witness :
    handleSend readyDraftState2 true
      = ({ readyDraftState2 with newMessage := "" },
          some (MsgWrite.mk "yo" "u2" true)) ∧
    readyDraftState2.userId = some (MsgWrite.mk "yo" "u2" true).userId ∧
    (MsgWrite.mk "yo" "u2" true).text = jsTrim readyDraftState2.newMessage ∧
    (MsgWrite.mk "yo" "u2" true).serverTs = true := by
  refine ⟨by decide, ?_⟩
  exact submit_write_payload readyDraftState2 true
    { readyDraftState2 with newMessage := "" }
    (MsgWrite.mk "yo" "u2" true) (by decide)

/-- C6: the Feed Synchronizer never opens a subscription while the identity
is null or the phase is not Online: every open emitted by any step records
a non-null identity and the Online phase at the moment it happened. -/
theorem subscription_gating :
    ∀ s e u st, Action.openSub u st ∈ (step s e).2 →
    u ≠ none ∧ st = Status.online := by
  intro s e u st h
  rcases openSub_mem_step h with ⟨v, _, hu, hst, _⟩
  exact ⟨by simp [hu], hst⟩

theorem subscription_gating_witness :
    Action.openSub (some "u3") Status.online
      ∈ (step initState (Event.auth (some "u3"))).2 ∧
    ((some "u3" : Option String) ≠ none ∧ Status.online = Status.online) :=
  ⟨by decide, subscription_gating initState (Event.auth (some "u3"))
    (some "u3") Status.online (by decide)⟩

/-- C7: at most one feed subscription is live at any reachable instant, and
whenever a step opens a subscription while one is live, the step's effects
are exactly release-then-open — never open-without-release. -/
theorem single_active_subscription :
    (∀ evs, ((runS initState evs).live).length ≤ 1) ∧
    (∀ evs e u st, (runS initState evs).live ≠ [] →
      Action.openSub u st ∈ (step (runS initState evs) e).2 →
      (step (runS initState evs) e).2
        = [Action.closeSub, Action.openSub u st]) := by
  have hinv : ∀ evs, SubInv (runS initState evs) :=
    fun evs => runS_subInv evs initState (by simp [SubInv, initState])
  constructor
  · intro evs
    rw [hinv evs]
    cases (runS initState evs).sub <;> simp
  · intro evs e u st hl h
    have hsome : (runS initState evs).sub.isSome := by
      cases hsub : (runS initState evs).sub with
      | none =>
        rw [hinv evs, hsub] at hl
        simp at hl
      | some i => simp
    rcases openSub_mem_step h with ⟨v, _, hu, hst, hact⟩
    rw [hact, if_pos hsome, hu, hst]
    rfl

theorem single_active_subscription_witness :
    (runS initState [Event.auth (some "u")]).live ≠ [] ∧
    Action.openSub (some "v") Status.online
      ∈ (step (runS initState [Event.auth (some "u")])
          (Event.auth (some "v"))).2 ∧
    (step (runS initState [Event.auth (some "u")])
        (Event.auth (some "v"))).2
      = [Action.closeSub, Action.openSub (some "v") Status.online] :=
  ⟨by decide, by decide,
    single_active_subscription.2 [Event.auth (some "u")]
      (Event.auth (some "v")) (some "v") Status.online (by decide) (by decide)⟩

/-- C8: at a sign-in attempt, custom-token sign-in is chosen exactly when an
out-of-band token (a non-empty string, the source treating a falsy global
as absent) was supplied at process start; with no token the attempt is
anonymous sign-in, so absence of the token yields a defined result rather
than a crash. -/
theorem auth_method_selection :
    authMethodAtStart none = AuthMethod.anonymous ∧
    ∀ w, ((∃ t, authMethodAtStart w = AuthMethod.customToken t) ↔
          (∃ t, w = some t ∧ t ≠ "")) := by
  refine ⟨rfl, ?_⟩
  intro w
  cases w with
  | none => simp [authMethodAtStart, getInitialAuthToken, doAuthMethod]
  | some t =>
    by_cases ht : t = "" <;>
      simp [authMethodAtStart, getInitialAuthToken, doAuthMethod, ht]

theorem auth_method_selection_witness :
    ∃ t, authMethodAtStart (some "tok") = AuthMethod.customToken t :=
  (auth_method_selection.2 (some "tok")).mpr ⟨"tok", rfl, by decide⟩

/-- C9: the invariant `phase = Online → identity ≠ null` holds in every
state reachable by the session lifecycle from the mount state: whenever the
exposed phase is Online, the exposed identity is non-null. -/
theorem online_phase_has_identity :
    ∀ evs, (runS initState evs).status = Status.online →
    (runS initState evs).userId ≠ none := by
  intro evs
  exact runS_onlineInv evs initState (by simp [OnlineInv, initState])

theorem online_phase_has_identity_witness :
    (runS initState [Event.auth (some "u")]).status = Status.online ∧
    (runS initState [Event.auth (some "u")]).userId ≠ none :=
  ⟨by decide, online_phase_has_identity [Event.auth (some "u")] (by decide)⟩

/-- C10: before the document-store handle has been initialized (it is unset
at mount and only the subscription effect assigns it), a submit is a no-op
even with an identity present and a non-empty draft: no write is issued and
the state, including the draft, is unchanged. -/
theorem submit_before_store_init :
    initState.db = false ∧
    (∀ s u ok, s.db = false → s.userId = some u → jsTrim s.newMessage ≠ "" →
      handleSend s ok = (s, none)) := by
  refine ⟨rfl, ?_⟩
  intro s u ok hdb hu _
  unfold handleSend
  simp [hu, hdb]

theorem submit_before_store_init_witness :
    ({ initState with userId := some "u4", newMessage := "hey" } :
        AppState).db = false ∧
    ({ initState with userId := some "u4", newMessage := "hey" } :
        AppState).userId = some "u4" ∧
    jsTrim "hey" ≠ "" ∧
    handleSend { initState with userId := some "u4", newMessage := "hey" } true
      = ({ initState with userId := some "u4", newMessage := "hey" }, none) :=
  ⟨rfl, rfl, by decide,
    submit_before_store_init.2 _ "u4" true rfl rfl (by decide)⟩

end Chat
